import Mathlib

/-
  Verification development for the quant repository (parthDOOM/quant):
  a shallow embedding of its three numerical engines (HRP clustering,
  pairwise cointegration / spread signals, implied-volatility surface)
  and of the claim-relevant frontend code, together with theorems that
  settle the frozen claims about the natural-language specification.

  The backend Python services (backend/app/services/*.py) are not part
  of the provided sources; definitions embedding them are modelled from
  the specification and from the repository's own documentation
  (ARCHITECTURE.md, the in-app Documentation page), as marked in each
  doc comment.  The frontend TypeScript under frontend/src is embedded
  directly from its source.
-/

set_option maxRecDepth 4000

namespace Quant

/- ====================================================================
   Part 1: data model and definitions
   ==================================================================== -/

/- ---------- Cointegration half-life (claim C1) ---------- -/

/-- Modelled from the spec and ARCHITECTURE.md ("Half-Life (Mean Reversion
Speed): half_life = -ln(2) / ln(1 + θ)"): the half-life computation of
`test_cointegration` in backend/app/services/cointegration.py, which is
absent from the provided sources. -/
noncomputable def half_life_formula (θ : ℝ) : ℝ :=
  -Real.log 2 / Real.log (1 + θ)

/-- From src/unnamed/part_001 (frontend/src/types/api.ts): the CointResult
interface returned by POST /stat-arb/test-pair.  Every field is a plain
number (`half_life : ℝ`, not an optional); the field hedge_ratio is named
with a trailing tick here. -/
structure CointResult where
  p_value : ℝ
  test_statistic : ℝ
  is_cointegrated : Bool
  hedge_ratio' : ℝ
  half_life : ℝ
  spread_mean : ℝ
  spread_std : ℝ
  correlation : ℝ

/-- The half-life value delivered to clients for a fitted AR(1) coefficient
θ.  Because the `CointResult` interface (src/unnamed/part_001, lines 56-65)
types half_life as a non-nullable number, and the frontend renders it
unconditionally (`data.half_life.toFixed(1)` in SpreadChart.tsx line 295 and
PairsTable.tsx), the report always carries `some` numeric value of the
formula — there is no null channel for it. -/
noncomputable def reported_half_life (θ : ℝ) : Option ℝ :=
  some (half_life_formula θ)

/-- Modelled from the spec (§4.4): the claim-side reading in which a
non-reverting pair (θ ≥ 0) yields an undefined half-life; used only to
contrast with `reported_half_life`, which embeds the actual interface. -/
noncomputable def spec_half_life (θ : ℝ) : Option ℝ :=
  if θ < 0 then some (half_life_formula θ) else none

/- ---------- Frontend form validation (claim C10) ---------- -/

/-- From src/unnamed/part_001: the four linkage methods of HRPRequest. -/
inductive LinkageMethod
  | single | complete | average | ward
deriving DecidableEq, Repr

/-- Split a character list at every comma, mirroring JavaScript
String.prototype.split(',') (an empty input yields one empty group). -/
def splitOnComma (cs : List Char) : List (List Char) :=
  cs.foldr
    (fun c acc =>
      match acc with
      | [] => [[]]
      | g :: gs => if c = ',' then [] :: g :: gs else (c :: g) :: gs)
    [[]]

/-- Drop whitespace from both ends, mirroring String.prototype.trim(). -/
def trimChars (cs : List Char) : List Char :=
  ((cs.dropWhile Char.isWhitespace).reverse.dropWhile Char.isWhitespace).reverse

/-- From src/frontend/src/pages/StatArbAnalysis.tsx lines 46-49: parse the
comma-separated tickers field (split on ',', trim each entry, upper-case
it, drop empty entries). -/
def parseTickers (s : String) : List String :=
  ((splitOnComma s.data).map
      (fun t => String.mk ((trimChars t).map Char.toUpper))).filter
    (fun t => t.length > 0)

/-- From src/unnamed/part_001: the FindPairsRequest body of
POST /stat-arb/find-pairs.  Dates are embedded as integers (JavaScript
Date comparison is numeric on the epoch value). -/
structure FindPairsRequest where
  tickers : List String
  start_date : Int
  end_date : Int
  p_value_threshold : ℚ
deriving DecidableEq, Repr

/-- From src/unnamed/part_001: the HRPRequest body of POST /hrp/analyze. -/
structure HRPRequest where
  tickers : List String
  start_date : Int
  end_date : Int
  linkage_method : LinkageMethod
deriving DecidableEq, Repr

/-- Synchronous outcome of one StatArb form submission: the error banner
set, the cleared pairs-result state, and the API request issued (if any). -/
structure StatArbSubmitOutcome where
  error : Option String
  pairsResult : Option Unit
  request : Option FindPairsRequest
deriving DecidableEq, Repr

/-- From src/frontend/src/pages/StatArbAnalysis.tsx lines 38-71
(handleSubmit): results are cleared unconditionally; fewer than 2 parsed
tickers or startDate >= endDate refuse to issue the request and set an
error message; otherwise the find-pairs request is issued. -/
def statArbHandleSubmit (tickers : String) (startDate endDate : Int)
    (thr : ℚ) : StatArbSubmitOutcome :=
  let tickerList := parseTickers tickers
  if tickerList.length < 2 then
    { error := some "Please enter at least 2 tickers (comma-separated)"
      pairsResult := none
      request := none }
  else if endDate ≤ startDate then
    { error := some "Start date must be before end date"
      pairsResult := none
      request := none }
  else
    { error := none
      pairsResult := none
      request := some { tickers := tickerList, start_date := startDate,
                        end_date := endDate, p_value_threshold := thr } }

/-- Synchronous outcome of one HRP form submission. -/
structure HRPSubmitOutcome where
  error : Option String
  data : Option Unit
  request : Option HRPRequest
deriving DecidableEq, Repr

/-- From src/frontend/src/pages/HRPAnalysis.tsx lines 38-61 (handleSubmit):
the only submit-time validation is the ticker count; there is no date-order
check before the request is issued (the date pickers bound start ≤ end but
allow equality). -/
def hrpHandleSubmit (tickers : List String) (startDate endDate : Int)
    (method : LinkageMethod) : HRPSubmitOutcome :=
  if tickers.length < 2 then
    { error := some "Please select at least 2 tickers for analysis"
      data := none
      request := none }
  else
    { error := none
      data := none
      request := some { tickers := tickers, start_date := startDate,
                        end_date := endDate, linkage_method := method } }

/- ---------- IV data table sorting (claim C9) ---------- -/

/-- From src/frontend/src/components/IVDataTable.tsx line 10. -/
inductive SortDirection
  | asc | desc
deriving DecidableEq, Repr

/-- From src/frontend/src/components/IVDataTable.tsx (and
src/unnamed/part_002 type file): one row of the IV data table; the
implied_volatility column is nullable. -/
structure OptionContractIV where
  strike : ℚ
  moneyness : ℚ
  time_to_expiry : ℚ
  bid : ℚ
  ask : ℚ
  mid_price : ℚ
  volume : ℚ
  open_interest : ℚ
  implied_volatility : Option ℚ
  expiration : ℕ
deriving DecidableEq, Repr

/-- From src/frontend/src/components/IVDataTable.tsx lines 21-38: the
comparator used by sortedData when sortField = 'implied_volatility'.
Null IVs compare after every value (lines 26-30); equal operands give 0;
otherwise the direction decides the sign (lines 35-37). -/
def ivCompare (dir : SortDirection) (a b : Option ℚ) : Int :=
  match a, b with
  | none, none => 0
  | none, some _ => 1
  | some _, none => -1
  | some x, some y =>
    if x < y then (match dir with | .asc => -1 | .desc => 1)
    else if y < x then (match dir with | .asc => 1 | .desc => -1)
    else 0

/-- The order relation induced by the comparator (a sorts no later than b). -/
def ivLe (dir : SortDirection) (a b : Option ℚ) : Prop :=
  ivCompare dir a b ≤ 0

instance (dir : SortDirection) : DecidableRel (ivLe dir) :=
  fun a b => inferInstanceAs (Decidable (ivCompare dir a b ≤ 0))

/-- From src/frontend/src/components/IVDataTable.tsx lines 19-40: the
sortedData memo for the implied-volatility column — a stable sort of the
contract rows by the comparator above (Array.prototype.sort is stable and,
for a consistent comparator, orders by it; insertion sort realizes that). -/
def sortedData (dir : SortDirection) (l : List OptionContractIV) :
    List OptionContractIV :=
  List.insertionSort
    (fun a b => ivLe dir a.implied_volatility b.implied_volatility) l

/- ---------- IV solver (claims C2, C4) ---------- -/

/-- Convergence tolerance of the Newton-Raphson IV solver, in price units.
From ARCHITECTURE.md line 295 ("Converge when |BSM(σ) - market_price| <
1e-6") and the IV page methodology note in src/unnamed/part_002 line 288
("tolerance: 1e-6, max iterations: 100").  The in-app Documentation page
states 0.0001 instead; the two solver-adjacent sources agree on 1e-6. -/
def ivTolerance : ℚ := 1 / 1000000

/-- Numerical floor on vega below which the solver gives up (spec §4.8; the
methodology note in src/unnamed/part_002 line 297: deep ITM/OTM options
"may fail to converge due to low Vega (<1e-8)"). -/
def vegaFloor : ℚ := 1 / 100000000

/-- Maximum Newton-Raphson iteration count (100, per src/unnamed/part_002
line 288 and the Documentation page FAQ). -/
def ivMaxIterations : ℕ := 100

/-- Fixed initial volatility guess: 0.20 annualized (spec §4.8). -/
def sigmaInitial : ℚ := 1 / 5

/-- Modelled from the spec (§4.8) and ARCHITECTURE.md: the Newton-Raphson
iteration of calculate_implied_volatility (iv_calculator.py, absent from
src/), parametrized by the contract's pricing and vega functions of
volatility (§4.7 partially applied to the contract's spot, strike, expiry
and rate — the claims concern the solver policy, not the closed-form
formula).  Each iteration checks, in order: convergence
(|price(σ) - market| < tolerance), the vega floor, and whether the Newton
update σ - (price(σ) - market)/vega(σ) is driven non-positive; the two
failure checks return none, and exhausted fuel models exceeding the
maximum iteration count. -/
def nrIterate (price veg : ℚ → ℚ) (market : ℚ) : ℕ → ℚ → Option ℚ
  | 0, _ => none
  | fuel + 1, σ =>
    if |price σ - market| < ivTolerance then some σ
    else if veg σ < vegaFloor then none
    else if σ - (price σ - market) / veg σ ≤ 0 then none
    else nrIterate price veg market fuel (σ - (price σ - market) / veg σ)

/-- Modelled from the spec (§4.8): solve(marketPrice, …) — run the
Newton-Raphson iteration from the fixed initial guess under the iteration
cap.  A total function into an optional: solver failure is the value none,
never an exception. -/
def calculate_implied_volatility (price veg : ℚ → ℚ) (market : ℚ) :
    Option ℚ :=
  nrIterate price veg market ivMaxIterations sigmaInitial

/-- A constant pricing function lying 1e-5 away from the market price 0.20:
within the spec's claimed 1e-4 tolerance but outside the repository's 1e-6
tolerance at every iterate. -/
def nearPriceFn : ℚ → ℚ := fun _ => 1 / 5 + 1 / 100000

/-- A constant pricing function equal to the market price 0.20. -/
def flatPriceFn : ℚ → ℚ := fun _ => 1 / 5

/-- A constant unit vega. -/
def unitVega : ℚ → ℚ := fun _ => 1

/-- A constant vega of 1e-9, below the solver's 1e-8 floor. -/
def tinyVegaFn : ℚ → ℚ := fun _ => 1 / 1000000000

/-- A constant vega of 1e-5 — above the floor, but small enough that one
Newton step from 0.20 drives the volatility iterate non-positive. -/
def smallVega : ℚ → ℚ := fun _ => 1 / 100000

/- ---------- IV surface engine (claim C6) ---------- -/

/-- An option contract row as fetched from the chain (options_data.py),
before mid price, moneyness and IV are attached. -/
structure OptionContractIn where
  strike : ℚ
  time_to_expiry : ℚ
  bid : ℚ
  ask : ℚ
  volume : ℚ
  open_interest : ℚ
  is_call : Bool
  expiration : ℕ
deriving DecidableEq, Repr

/-- Mid price = (bid + ask) / 2 (ARCHITECTURE.md line 290). -/
def midPriceOf (c : OptionContractIn) : ℚ := (c.bid + c.ask) / 2

/-- Moneyness = strike / spot (ARCHITECTURE.md line 291). -/
def moneynessOf (c : OptionContractIn) (spot : ℚ) : ℚ := c.strike / spot

/-- A pricing model assigns to each contract its price and vega as
functions of volatility; the surface engine is analysed for an arbitrary
model. -/
def PricingModel : Type := OptionContractIn → (ℚ → ℚ) × (ℚ → ℚ)

/-- Modelled from the spec (§4.9): attach moneyness, mid price and the
solved implied volatility to one contract. -/
def attachIV (pm : PricingModel) (spot : ℚ) (c : OptionContractIn) :
    OptionContractIV :=
  { strike := c.strike
    moneyness := moneynessOf c spot
    time_to_expiry := c.time_to_expiry
    bid := c.bid
    ask := c.ask
    mid_price := midPriceOf c
    volume := c.volume
    open_interest := c.open_interest
    implied_volatility :=
      calculate_implied_volatility (pm c).1 (pm c).2 (midPriceOf c)
    expiration := c.expiration }

/-- The implied volatilities of the contracts that solved (non-null IV). -/
def nonNullIVs (l : List OptionContractIV) : List ℚ :=
  l.filterMap (fun c => c.implied_volatility)

/-- First minimizer of f over a list, given a current best (left-biased). -/
def argminAux {α : Type} (f : α → ℚ) : α → List α → α
  | best, [] => best
  | best, x :: xs => argminAux f (if f x < f best then x else best) xs

/-- First minimizer of f over a list; none on the empty list. -/
def argminList {α : Type} (f : α → ℚ) : List α → Option α
  | [] => none
  | x :: xs => some (argminAux f x xs)

/-- Range statistics over one side's IVs (IVRangeStats in
src/unnamed/part_002): min/max/mean/std, all null when no contract on the
side solved.  The standard deviation is the square root of the population
variance (numpy's default), held in an ℝ-valued field. -/
structure IVRangeStats where
  min : Option ℚ
  max : Option ℚ
  mean : Option ℚ
  std : Option ℝ

/-- Minimum of a non-empty list of rationals. -/
def listMin : List ℚ → Option ℚ
  | [] => none
  | x :: xs => some (xs.foldl min x)

/-- Maximum of a non-empty list of rationals. -/
def listMax : List ℚ → Option ℚ
  | [] => none
  | x :: xs => some (xs.foldl max x)

/-- Arithmetic mean of a non-empty list of rationals. -/
def listMean : List ℚ → Option ℚ
  | [] => none
  | l => some (l.sum / l.length)

/-- Population variance of a non-empty list of rationals. -/
def listVariance : List ℚ → Option ℚ
  | [] => none
  | l => some (((l.map (fun x => (x - l.sum / l.length) ^ 2)).sum) / l.length)

/-- Modelled from the spec (§4.9): the per-side range statistics, computed
over the given (already null-filtered) IV list. -/
noncomputable def ivRangeStatsOf (l : List ℚ) : IVRangeStats :=
  { min := listMin l
    max := listMax l
    mean := listMean l
    std := (listVariance l).map (fun v => Real.sqrt (v : ℝ)) }

/-- Modelled from the spec (§4.9): ATM IV — the IV of the solved contract
whose moneyness is closest to 1.0; none when no contract solved. -/
def atmIVOf (l : List OptionContractIV) : Option ℚ :=
  match argminList (fun c => |c.moneyness - 1|)
      (l.filter (fun c => c.implied_volatility.isSome)) with
  | none => none
  | some c => c.implied_volatility

/-- Modelled from the spec (§4.9): the solved out-of-the-money put
(moneyness < 1) nearest the money. -/
def otmPutIV (puts : List OptionContractIV) : Option ℚ :=
  match argminList (fun c => |c.moneyness - 1|)
      ((puts.filter (fun c => c.moneyness < 1)).filter
        (fun c => c.implied_volatility.isSome)) with
  | none => none
  | some c => c.implied_volatility

/-- Modelled from the spec (§4.9): the solved out-of-the-money call
(moneyness > 1) nearest the money. -/
def otmCallIV (calls : List OptionContractIV) : Option ℚ :=
  match argminList (fun c => |c.moneyness - 1|)
      ((calls.filter (fun c => 1 < c.moneyness)).filter
        (fun c => c.implied_volatility.isSome)) with
  | none => none
  | some c => c.implied_volatility

/-- Modelled from the spec (§4.9): put-call skew = OTM put IV − OTM call
IV at a matched moneyness distance (matched here as the solved OTM
contract nearest the money on each side). -/
def putCallSkew (calls puts : List OptionContractIV) : Option ℚ :=
  match otmPutIV puts, otmCallIV calls with
  | some p, some c => some (p - c)
  | _, _ => none

/-- From src/unnamed/part_002 (frontend/src/types/ivSurface.ts): the
IVSurfaceMetrics record of GET /iv/surface. -/
structure IVSurfaceMetrics where
  atm_call_iv : Option ℚ
  atm_put_iv : Option ℚ
  atm_iv_avg : Option ℚ
  put_call_skew : Option ℚ
  iv_range_calls : IVRangeStats
  iv_range_puts : IVRangeStats
  total_call_contracts : ℕ
  total_put_contracts : ℕ
  successful_call_ivs : ℕ
  successful_put_ivs : ℕ
  expiration_dates : List ℕ

/-- Modelled from the spec (§4.9): aggregate the surface metrics — range
statistics over the non-null IVs only, total counts over every contract,
success counts over the solved contracts. -/
noncomputable def computeMetrics (calls puts : List OptionContractIV) :
    IVSurfaceMetrics :=
  { atm_call_iv := atmIVOf calls
    atm_put_iv := atmIVOf puts
    atm_iv_avg :=
      match atmIVOf calls, atmIVOf puts with
      | some a, some b => some ((a + b) / 2)
      | some a, none => some a
      | none, some b => some b
      | none, none => none
    put_call_skew := putCallSkew calls puts
    iv_range_calls := ivRangeStatsOf (nonNullIVs calls)
    iv_range_puts := ivRangeStatsOf (nonNullIVs puts)
    total_call_contracts := calls.length
    total_put_contracts := puts.length
    successful_call_ivs := (nonNullIVs calls).length
    successful_put_ivs := (nonNullIVs puts).length
    expiration_dates := ((calls ++ puts).map (fun c => c.expiration)).dedup }

/-- From src/unnamed/part_002: the IVSurfaceResponse record. -/
structure IVSurfaceResponse where
  spot_price : ℚ
  risk_free_rate : ℚ
  calls : List OptionContractIV
  puts : List OptionContractIV
  metrics : IVSurfaceMetrics

/-- Modelled from the spec (§4.9): computeSurface — solve every contract
independently (a per-contract map) and aggregate the metrics. -/
noncomputable def computeSurface (pm : PricingModel) (spot rate : ℚ)
    (rawCalls rawPuts : List OptionContractIn) : IVSurfaceResponse :=
  { spot_price := spot
    risk_free_rate := rate
    calls := rawCalls.map (attachIV pm spot)
    puts := rawPuts.map (attachIV pm spot)
    metrics := computeMetrics (rawCalls.map (attachIV pm spot))
      (rawPuts.map (attachIV pm spot)) }

/-- A concrete monotone pricing model (price σ = σ, vega σ = 1) used to
exercise the solver on the zero-premium contract. -/
def linearPM : PricingModel := fun _ => (fun σ => σ, fun _ => 1)

/-- The contract of the spec's bid = ask = 0 scenario (§8). -/
def zeroBidAskContract : OptionContractIn :=
  { strike := 100, time_to_expiry := 1 / 12, bid := 0, ask := 0,
    volume := 0, open_interest := 0, is_call := true, expiration := 0 }

/- ---------- Pairs engine (claim C5) ---------- -/

/-- All unordered 2-combinations of a list, in insertion order
(lexicographic over the input order) — itertools.combinations in the
StatArb flow (ARCHITECTURE.md line 262). -/
def allPairs {α : Type} : List α → List (α × α)
  | [] => []
  | x :: xs => (xs.map (fun y => (x, y))) ++ allPairs xs

/-- From src/unnamed/part_001: one entry of FindPairsResponse.pairs
(the CointegratedPair interface); the field hedge_ratio is named with a
trailing tick here. -/
structure CointegratedPair where
  asset_1 : String
  asset_2 : String
  p_value : ℚ
  test_statistic : ℚ
  hedge_ratio' : ℚ
  half_life : ℚ
  correlation : ℚ
deriving DecidableEq, Repr

/-- From src/unnamed/part_001: the FindPairsResponse record of
POST /stat-arb/find-pairs. -/
structure FindPairsResponse where
  pairs : List CointegratedPair
  total_combinations_tested : ℕ
  cointegrated_count : ℕ
deriving DecidableEq, Repr

/-- Modelled from the spec (§4.6): the tested combinations — every
unordered 2-combination whose price fetch succeeded for both tickers,
run through the per-pair test (§4.4); combinations with a failed fetch
are skipped.  The data-fetch collaborator and the test are parameters. -/
def testedPairs {S : Type} (fetch : String → Option S)
    (test : String → String → S → S → CointegratedPair)
    (tickers : List String) : List CointegratedPair :=
  (allPairs tickers).filterMap (fun ab =>
    match fetch ab.1, fetch ab.2 with
    | some sa, some sb => some (test ab.1 ab.2 sa sb)
    | _, _ => none)

/-- Modelled from the spec (§4.6): find_pairs — test all combinations with
available data, retain those with p-value below the threshold, and report
the number of combinations actually tested. -/
def findPairs {S : Type} (fetch : String → Option S)
    (test : String → String → S → S → CointegratedPair)
    (threshold : ℚ) (tickers : List String) : FindPairsResponse :=
  { pairs := (testedPairs fetch test tickers).filter
      (fun r => r.p_value < threshold)
    total_combinations_tested := (testedPairs fetch test tickers).length
    cointegrated_count := ((testedPairs fetch test tickers).filter
      (fun r => r.p_value < threshold)).length }

/-- A fetch collaborator that succeeds on every ticker (witness data). -/
def constFetchFn : String → Option ℚ := fun _ => some 0

/-- A constant per-pair test result (witness data). -/
def constTestFn (a b : String) (_x _y : ℚ) : CointegratedPair :=
  { asset_1 := a, asset_2 := b, p_value := 1/100, test_statistic := 0,
    hedge_ratio' := 1, half_life := 10, correlation := 1/2 }

/- ---------- Spread and signal generation (claim C3) ---------- -/

/-- The discrete trading signal values of SpreadPoint.signal
(src/unnamed/part_001 line 106); the absent signal is Option.none. -/
inductive TradeSignal
  | long | short | exitSignal
deriving DecidableEq, Repr

/-- Modelled from the spec (§4.5): calculate_spread of cointegration.py
(absent from src/) — raw spread = seriesA − hedgeRatio·seriesB per date. -/
def calculate_spread (a b : List ℝ) (β : ℝ) : List ℝ :=
  List.zipWith (fun x y => x - β * y) a b

/-- The trailing window of w observations ending at index i. -/
def windowSlice (w i : ℕ) (s : List ℝ) : List ℝ :=
  (s.take (i + 1)).drop (i + 1 - w)

/-- Rolling mean over the trailing window. -/
noncomputable def rollingMean (w i : ℕ) (s : List ℝ) : ℝ :=
  (windowSlice w i s).sum / w

/-- Rolling standard deviation over the trailing window (sample standard
deviation, the pandas rolling default). -/
noncomputable def rollingStd (w i : ℕ) (s : List ℝ) : ℝ :=
  Real.sqrt (((windowSlice w i s).map
    (fun x => (x - rollingMean w i s) ^ 2)).sum / ((w : ℝ) - 1))

/-- Modelled from the spec (§4.5): calculate_zscore of cointegration.py —
the rolling z-score (spread − rolling mean)/rolling std at index i. -/
noncomputable def calculate_zscore (w i : ℕ) (s : List ℝ) : ℝ :=
  (s.getD i 0 - rollingMean w i s) / rollingStd w i s

/-- Modelled from the spec (§4.5): generate_trading_signals of
cointegration.py, per point — z ≥ entry → short; z ≤ −entry → long;
|z| ≤ exit → exit; otherwise none; stateless in the date. -/
noncomputable def generate_trading_signal (entry exitThr z : ℝ) :
    Option TradeSignal :=
  if z ≥ entry then some .short
  else if z ≤ -entry then some .long
  else if |z| ≤ exitThr then some .exitSignal
  else none

/-- From src/unnamed/part_001: one row of the spread series (SpreadPoint);
the date is embedded as the index into the aligned series. -/
structure SpreadPoint where
  dateIdx : ℕ
  spread : ℝ
  zscore : ℝ
  signal : Option TradeSignal

/-- Modelled from the spec (§4.5): computeSpread — the raw spread, its
rolling z-score over the trailing window, and the per-point signal; the
first window − 1 dates (indices with i + 1 < window) have no z-score and
are excluded from the output, not treated as z = 0. -/
noncomputable def computeSpread (a b : List ℝ) (β : ℝ) (w : ℕ)
    (entry exitThr : ℝ) : List SpreadPoint :=
  (List.range (calculate_spread a b β).length).filterMap (fun i =>
    if i + 1 < w then none
    else some
      { dateIdx := i
        spread := (calculate_spread a b β).getD i 0
        zscore := calculate_zscore w i (calculate_spread a b β)
        signal := generate_trading_signal entry exitThr
          (calculate_zscore w i (calculate_spread a b β)) })

/- ---------- Correlation → distance transform (claim C8) ---------- -/

/-- From ARCHITECTURE.md lines 308-312 (correlation_to_distance of
hrp_clustering.py, absent from src/): d = sqrt(0.5·(1 − ρ)). -/
noncomputable def correlation_to_distance (ρ : ℝ) : ℝ :=
  Real.sqrt (0.5 * (1 - ρ))

/-- A valid correlation matrix in the claim's sense: symmetric, unit
diagonal, entries in [-1, 1] (spec §3). -/
def IsValidCorrMatrix (n : ℕ) (C : ℕ → ℕ → ℝ) : Prop :=
  (∀ i j, i < n → j < n → C i j = C j i) ∧
  (∀ i, i < n → C i i = 1) ∧
  (∀ i j, i < n → j < n → -1 ≤ C i j ∧ C i j ≤ 1)

/-- A concrete 2×2 correlation matrix (unit diagonal, 0.5 off-diagonal). -/
noncomputable def corrExample : ℕ → ℕ → ℝ :=
  fun i j => if i = j then 1 else 1 / 2

/- ---------- Distance & Linkage module (claim C7) ---------- -/

/-- Nested cluster tree (DendrogramNode in src/unnamed/part_001; design
note §9: tagged variant Leaf / Internal with the merge height at internal
nodes). -/
inductive ClusterTree
  | leaf (name : ℕ)
  | node (height : ℚ) (left right : ClusterTree)
deriving DecidableEq, Repr

/-- The height of a tree's root (leaves sit at height 0). -/
def ClusterTree.heightOf : ClusterTree → ℚ
  | .leaf _ => 0
  | .node h _ _ => h

/-- The number of original items subsumed by a cluster. -/
def ClusterTree.leafCount : ClusterTree → ℕ
  | .leaf _ => 1
  | .node _ l r => l.leafCount + r.leafCount

/-- Monotone merge order: every internal node's height is at least the
height of each of its children. -/
def ClusterTree.monotone : ClusterTree → Prop
  | .leaf _ => True
  | .node h l r =>
    l.heightOf ≤ h ∧ r.heightOf ≤ h ∧ l.monotone ∧ r.monotone

/-- A cluster tree with real-valued heights, for the reported ward heights
(the square roots of the squared-space recurrence values). -/
inductive ClusterTreeR
  | leaf (name : ℕ)
  | node (height : ℝ) (left right : ClusterTreeR)

/-- The height of the root of a real-heighted tree. -/
noncomputable def ClusterTreeR.heightOf : ClusterTreeR → ℝ
  | .leaf _ => 0
  | .node h _ _ => h

/-- Monotone merge order for real-heighted trees. -/
def ClusterTreeR.monotone : ClusterTreeR → Prop
  | .leaf _ => True
  | .node h l r =>
    l.heightOf ≤ h ∧ r.heightOf ≤ h ∧ l.monotone ∧ r.monotone

/-- Apply a transform to every merge height. -/
noncomputable def ClusterTree.mapHeights (f : ℚ → ℝ) :
    ClusterTree → ClusterTreeR
  | .leaf n => .leaf n
  | .node h l r => .node (f h) (l.mapHeights f) (r.mapHeights f)

/-- Modelled from the spec (§4.1, design note §9: "Lance-Williams
recurrence for linkage update") and ARCHITECTURE.md lines 314-318: the
inter-cluster distance update d(i∪j, k) for the four linkage criteria,
from a = d(i,k), b = d(j,k), c = d(i,j) and the cluster sizes ni, nj, nk.
For ward the recurrence is applied in squared-distance space (the form
scipy's update uses before taking square roots); the square root applied
to the reported heights is monotone, so merge-order properties are
unaffected. -/
def lwUpdate (m : LinkageMethod) (a b c : ℚ) (ni nj nk : ℕ) : ℚ :=
  match m with
  | .single => min a b
  | .complete => max a b
  | .average => ((ni : ℚ) * a + (nj : ℚ) * b) / ((ni : ℚ) + (nj : ℚ))
  | .ward =>
    (((ni : ℚ) + (nk : ℚ)) * a + ((nj : ℚ) + (nk : ℚ)) * b - (nk : ℚ) * c)
      / ((ni : ℚ) + (nj : ℚ) + (nk : ℚ))

/-- One active cluster: its id and the tree built for it so far. -/
abbrev Cluster := ℕ × ClusterTree

/-- The leaf count of the active cluster with a given id (1 if absent). -/
def sizeOfId (cs : List Cluster) (x : ℕ) : ℕ :=
  match cs.find? (fun c => c.1 == x) with
  | some c => c.2.leafCount
  | none => 1

/-- Modelled from the spec (§4.1): one merge of the agglomerative
clustering — join the selected pair p, q at height d(p, q), give the merged
cluster the fresh id, and update distances to every remaining cluster by
the Lance-Williams recurrence. -/
def mergeStep (m : LinkageMethod) (d : ℕ → ℕ → ℚ) (fresh : ℕ)
    (cs : List Cluster) (p q : Cluster) :
    (ℕ → ℕ → ℚ) × List Cluster :=
  (fun x y =>
    if x = fresh then
      if y = fresh then 0
      else
        lwUpdate m (d p.1 y) (d q.1 y) (d p.1 q.1)
          p.2.leafCount q.2.leafCount (sizeOfId cs y)
    else if y = fresh then
      lwUpdate m (d p.1 x) (d q.1 x) (d p.1 q.1)
        p.2.leafCount q.2.leafCount (sizeOfId cs x)
    else d x y,
   (fresh, ClusterTree.node (d p.1 q.1) p.2 q.2) ::
     cs.filter (fun c => c.1 ≠ p.1 ∧ c.1 ≠ q.1))

/-- Modelled from the spec (§4.1): the merge loop — repeatedly select the
pair of active clusters at minimal inter-cluster distance (ties broken by
generation order) and merge it, until one cluster remains or the fuel runs
out. -/
def runLinkage (m : LinkageMethod) :
    ℕ → (ℕ → ℕ → ℚ) → ℕ → List Cluster → List Cluster
  | 0, _, _, cs => cs
  | fuel + 1, d, fresh, cs =>
    match argminList (fun pq => d pq.1.1 pq.2.1) (allPairs cs) with
    | none => cs
    | some pq =>
      runLinkage m fuel (mergeStep m d fresh cs pq.1 pq.2).1 (fresh + 1)
        (mergeStep m d fresh cs pq.1 pq.2).2

/-- Modelled from the spec (§4.1/§4.3): perform_hierarchical_clustering —
run the merges on the n leaves 0..n−1 under the given initial distance
matrix (n − 1 merges happen; surplus fuel returns early once a single
cluster remains). -/
def perform_hierarchical_clustering (m : LinkageMethod) (n : ℕ)
    (d0 : ℕ → ℕ → ℚ) : List Cluster :=
  runLinkage m n d0 n ((List.range n).map (fun i => (i, ClusterTree.leaf i)))

/-- The loop invariant of the clustering: the distance function is
symmetric; active ids are fresh-bounded and distinct; distances between
distinct active clusters are nonnegative and dominate both clusters'
heights; and every active tree is height-monotone. -/
structure LinkInv (d : ℕ → ℕ → ℚ) (fresh : ℕ) (cs : List Cluster) : Prop where
  symm : ∀ x y, d x y = d y x
  idsLt : ∀ c ∈ cs, c.1 < fresh
  nodupIds : (cs.map (fun c => c.1)).Nodup
  nonneg : ∀ p ∈ cs, ∀ q ∈ cs, p.1 ≠ q.1 → 0 ≤ d p.1 q.1
  heightLe : ∀ p ∈ cs, ∀ q ∈ cs, p.1 ≠ q.1 → p.2.heightOf ≤ d p.1 q.1
  mono : ∀ c ∈ cs, c.2.monotone

/-- A concrete symmetric nonnegative 3×3 distance function (0 on the
diagonal, 1 off it), for the clustering witness. -/
def exampleDist : ℕ → ℕ → ℚ := fun i j => if i = j then 0 else 1

/-- A concrete three-row table used to witness the sorting claim: two
contracts whose solver failed (null IV) and one solved contract. -/
def ivTableExample : List OptionContractIV :=
  [ { strike := 150, moneyness := 3/2, time_to_expiry := 1/4, bid := 0,
      ask := 0, mid_price := 0, volume := 0, open_interest := 0,
      implied_volatility := none, expiration := 0 },
    { strike := 50, moneyness := 1/2, time_to_expiry := 1/4, bid := 0,
      ask := 0, mid_price := 0, volume := 0, open_interest := 0,
      implied_volatility := none, expiration := 0 },
    { strike := 100, moneyness := 1, time_to_expiry := 1/4, bid := 5,
      ask := 6, mid_price := 11/2, volume := 10, open_interest := 3,
      implied_volatility := some (1/4), expiration := 0 } ]

/- ====================================================================
   Part 2: theorems
   ==================================================================== -/

/- ---------- helper lemmas ---------- -/

theorem ivCompare_swap (dir : SortDirection) (a b : Option ℚ) :
    ivCompare dir a b = -ivCompare dir b a := by
  rcases a with _ | x <;> rcases b with _ | y
  · simp [ivCompare]
  · simp [ivCompare]
  · simp [ivCompare]
  · rcases lt_trichotomy x y with h | h | h
    · rcases dir <;> simp [ivCompare, h, lt_asymm h]
    · subst h
      rcases dir <;> simp [ivCompare, lt_irrefl]
    · rcases dir <;> simp [ivCompare, h, lt_asymm h]

theorem ivCompare_asc_nonpos (x y : ℚ) :
    ivCompare .asc (some x) (some y) ≤ 0 ↔ x ≤ y := by
  rcases lt_trichotomy x y with h | h | h
  · simp [ivCompare, h, le_of_lt h]
  · subst h
    simp [ivCompare, lt_irrefl]
  · simp [ivCompare, h, lt_asymm h, not_le.mpr h]

theorem ivCompare_desc_nonpos (x y : ℚ) :
    ivCompare .desc (some x) (some y) ≤ 0 ↔ y ≤ x := by
  rcases lt_trichotomy x y with h | h | h
  · simp [ivCompare, h, lt_asymm h, not_le.mpr h]
  · subst h
    simp [ivCompare, lt_irrefl]
  · simp [ivCompare, h, lt_asymm h, le_of_lt h]

theorem ivLe_total (dir : SortDirection) (a b : Option ℚ) :
    ivLe dir a b ∨ ivLe dir b a := by
  unfold ivLe
  rcases Int.le_total (ivCompare dir a b) 0 with h | h
  · exact Or.inl h
  · right
    rw [ivCompare_swap]
    omega

theorem ivLe_trans (dir : SortDirection) (a b c : Option ℚ) :
    ivLe dir a b → ivLe dir b c → ivLe dir a c := by
  rcases a with _ | x <;> rcases b with _ | y <;> rcases c with _ | z <;>
    unfold ivLe <;> intro h1 h2
  · simp [ivCompare]
  · simp [ivCompare] at h2
  · simp [ivCompare] at h1
  · simp [ivCompare] at h1
  · simp [ivCompare]
  · simp [ivCompare] at h2
  · simp [ivCompare]
  · rcases dir
    · rw [ivCompare_asc_nonpos] at h1 h2 ⊢
      exact le_trans h1 h2
    · rw [ivCompare_desc_nonpos] at h1 h2 ⊢
      exact le_trans h2 h1

/- ---------- C1 ---------- -/

/-- Claim C1, counterexample: at θ = 1 (no mean reversion, θ ≥ 0) the
Cointegration Tester's report carries the concrete negative number -1 in
the non-nullable half_life field — not an explicit null — contradicting
"reports the half-life as undefined (an explicit null/optional value),
never as a negative ... number". -/
theorem half_life_negative_not_null_at_one :
    reported_half_life 1 = some (-1) ∧
    half_life_formula 1 < 0 ∧
    spec_half_life 1 = none := by
  have hlog : Real.log 2 ≠ 0 := ne_of_gt (Real.log_pos one_lt_two)
  have hval : half_life_formula 1 = -1 := by
    unfold half_life_formula
    norm_num
  refine ⟨?_, ?_, ?_⟩
  · unfold reported_half_life
    rw [hval]
  · rw [hval]
    norm_num
  · unfold spec_half_life
    norm_num

/-- Claim C1, amended: the Cointegration Tester reports half_life as a plain
number for every θ (the CointResult interface has no null channel for it);
for θ < 0 that number is the positive -ln 2 / ln (1 + θ), and for θ > 0 the
same formula delivers a negative number rather than an explicit null. -/
theorem half_life_reported_number (θ : ℝ) :
    reported_half_life θ = some (half_life_formula θ) ∧
    (0 < θ → half_life_formula θ < 0) ∧
    (-1 < θ → θ < 0 → 0 < half_life_formula θ) := by
  have hlog2 : 0 < Real.log 2 := Real.log_pos one_lt_two
  refine ⟨rfl, ?_, ?_⟩
  · intro hθ
    have h1 : 0 < Real.log (1 + θ) := Real.log_pos (by linarith)
    unfold half_life_formula
    rw [neg_div, neg_lt_zero]
    exact div_pos hlog2 h1
  · intro hθ1 hθ2
    have h1 : Real.log (1 + θ) < 0 := Real.log_neg (by linarith) (by linarith)
    unfold half_life_formula
    rw [neg_div, neg_pos]
    exact div_neg_of_pos_of_neg hlog2 h1

/-- Witness for `half_life_reported_number` at θ = 1 and θ = -1/2. -/
theorem half_life_reported_number_witness :
    ((0:ℝ) < 1 ∧ half_life_formula 1 < 0) ∧
    ((-1:ℝ) < -1/2 ∧ (-1/2:ℝ) < 0 ∧ 0 < half_life_formula (-1/2)) :=
  ⟨⟨by norm_num, (half_life_reported_number 1).2.1 (by norm_num)⟩,
   ⟨by norm_num, by norm_num,
    (half_life_reported_number (-1/2)).2.2 (by norm_num) (by norm_num)⟩⟩

/- ---------- C10 ---------- -/

/-- Claim C10, counterexample: on the HRP page a submission with two tickers
and start date equal to the end date (not strictly before it) still issues
the API request — handleSubmit in HRPAnalysis.tsx has no date-order check. -/
theorem hrp_submit_no_date_check :
    (hrpHandleSubmit ["AAPL", "MSFT"] 0 0 .ward).request =
      some { tickers := ["AAPL", "MSFT"], start_date := 0, end_date := 0,
             linkage_method := .ward } ∧
    ¬ ((0:Int) < 0) := by
  constructor
  · rfl
  · decide

/-- Claim C10, amended: on the StatArb page, fewer than 2 parsed tickers or
a start date not strictly before the end date blocks the request, sets an
error message, and leaves the results state cleared; on the HRP page only
the ticker-count validation exists at submit time, and any submission with
at least 2 tickers issues the request regardless of date order. -/
theorem submit_validation (t : String) (sd ed : Int) (thr : ℚ)
    (tl : List String) (m : LinkageMethod) :
    ((parseTickers t).length < 2 →
      statArbHandleSubmit t sd ed thr =
        { error := some "Please enter at least 2 tickers (comma-separated)"
          pairsResult := none, request := none }) ∧
    (2 ≤ (parseTickers t).length → ed ≤ sd →
      statArbHandleSubmit t sd ed thr =
        { error := some "Start date must be before end date"
          pairsResult := none, request := none }) ∧
    (2 ≤ (parseTickers t).length → sd < ed →
      statArbHandleSubmit t sd ed thr =
        { error := none, pairsResult := none
          request := some { tickers := parseTickers t, start_date := sd,
                            end_date := ed, p_value_threshold := thr } }) ∧
    (tl.length < 2 →
      hrpHandleSubmit tl sd ed m =
        { error := some "Please select at least 2 tickers for analysis"
          data := none, request := none }) ∧
    (2 ≤ tl.length →
      hrpHandleSubmit tl sd ed m =
        { error := none, data := none
          request := some { tickers := tl, start_date := sd, end_date := ed,
                            linkage_method := m } }) := by
  refine ⟨?_, ?_, ?_, ?_, ?_⟩
  · intro h
    simp [statArbHandleSubmit, h]
  · intro h hd
    simp [statArbHandleSubmit, not_lt.mpr h, hd]
  · intro h hd
    simp [statArbHandleSubmit, not_lt.mpr h, not_le.mpr hd]
  · intro h
    simp [hrpHandleSubmit, h]
  · intro h
    simp [hrpHandleSubmit, not_lt.mpr h]

/-- Witness for `submit_validation`: a single-ticker StatArb submission is
refused, and a two-ticker HRP submission issues the request. -/
theorem submit_validation_witness :
    ((parseTickers "AAPL").length < 2 ∧
      statArbHandleSubmit "AAPL" 0 5 (1/20) =
        { error := some "Please enter at least 2 tickers (comma-separated)"
          pairsResult := none, request := none }) ∧
    (2 ≤ (["AAPL", "MSFT"] : List String).length ∧
      hrpHandleSubmit ["AAPL", "MSFT"] 0 5 .ward =
        { error := none, data := none
          request := some { tickers := ["AAPL", "MSFT"], start_date := 0,
                            end_date := 5, linkage_method := .ward } }) :=
  ⟨⟨by decide, (submit_validation "AAPL" 0 5 (1/20) [] .ward).1 (by decide)⟩,
   ⟨by decide,
    (submit_validation "AAPL" 0 5 (1/20) ["AAPL", "MSFT"] .ward).2.2.2.2
      (by decide)⟩⟩

/- ---------- C9 ---------- -/

/-- Claim C9: in the IV data table sorted by the implied-volatility column,
every contract with a null IV is ordered after every contract with a
non-null IV, for both sort directions: once a null appears at a position of
the sorted list, every later position is null as well. -/
theorem iv_table_nulls_sort_last (dir : SortDirection)
    (l : List OptionContractIV) (i j : ℕ) (hij : i < j)
    (hj : j < (sortedData dir l).length) :
    ((sortedData dir l).get ⟨i, lt_trans hij hj⟩).implied_volatility = none →
    ((sortedData dir l).get ⟨j, hj⟩).implied_volatility = none := by
  intro hnone
  have htot : IsTotal OptionContractIV
      (fun a b => ivLe dir a.implied_volatility b.implied_volatility) :=
    ⟨fun a b => ivLe_total dir _ _⟩
  have htrans : IsTrans OptionContractIV
      (fun a b => ivLe dir a.implied_volatility b.implied_volatility) :=
    ⟨fun a b c => ivLe_trans dir _ _ _⟩
  have hs : List.Sorted
      (fun a b => ivLe dir a.implied_volatility b.implied_volatility)
      (sortedData dir l) :=
    List.sorted_insertionSort _ l
  have hpair := List.pairwise_iff_get.mp hs ⟨i, lt_trans hij hj⟩ ⟨j, hj⟩ hij
  rw [hnone] at hpair
  unfold ivLe at hpair
  rcases hget : ((sortedData dir l).get ⟨j, hj⟩).implied_volatility
    with _ | v
  · rfl
  · rw [hget] at hpair
    simp [ivCompare] at hpair

/-- Witness for `iv_table_nulls_sort_last` on a three-row table (two null
IVs, one solved IV): in the ascending sort the rows at positions 1 and 2
are both null. -/
theorem iv_table_nulls_sort_last_witness :
    ((1:ℕ) < 2 ∧ 2 < (sortedData .asc ivTableExample).length) ∧
    ((sortedData .asc ivTableExample).get
        ⟨1, by decide⟩).implied_volatility = none ∧
    ((sortedData .asc ivTableExample).get
        ⟨2, by decide⟩).implied_volatility = none :=
  ⟨⟨by decide, by decide⟩, by decide,
   iv_table_nulls_sort_last .asc ivTableExample 1 2 (by decide) (by decide)
     (by decide)⟩

/- ---------- Newton-Raphson step lemmas (shared helpers) ---------- -/

theorem nrIterate_conv (price veg : ℚ → ℚ) (market : ℚ) (fuel : ℕ) (σ : ℚ)
    (h : |price σ - market| < ivTolerance) :
    nrIterate price veg market (fuel + 1) σ = some σ := by
  rw [nrIterate, if_pos h]

theorem nrIterate_vega_floor (price veg : ℚ → ℚ) (market : ℚ) (fuel : ℕ)
    (σ : ℚ) (h1 : ¬ (|price σ - market| < ivTolerance))
    (h2 : veg σ < vegaFloor) :
    nrIterate price veg market (fuel + 1) σ = none := by
  rw [nrIterate, if_neg h1, if_pos h2]

theorem nrIterate_nonpos (price veg : ℚ → ℚ) (market : ℚ) (fuel : ℕ)
    (σ : ℚ) (h1 : ¬ (|price σ - market| < ivTolerance))
    (h2 : ¬ (veg σ < vegaFloor))
    (h3 : σ - (price σ - market) / veg σ ≤ 0) :
    nrIterate price veg market (fuel + 1) σ = none := by
  rw [nrIterate, if_neg h1, if_neg h2, if_pos h3]

theorem nrIterate_newton_step (price veg : ℚ → ℚ) (market : ℚ) (fuel : ℕ)
    (σ : ℚ) (h1 : ¬ (|price σ - market| < ivTolerance))
    (h2 : ¬ (veg σ < vegaFloor))
    (h3 : 0 < σ - (price σ - market) / veg σ) :
    nrIterate price veg market (fuel + 1) σ =
      nrIterate price veg market fuel (σ - (price σ - market) / veg σ) := by
  rw [nrIterate, if_neg h1, if_neg h2, if_neg (not_le.mpr h3)]

theorem nrIterate_some_tol (price veg : ℚ → ℚ) (market : ℚ) :
    ∀ (fuel : ℕ) (σ0 σ : ℚ), nrIterate price veg market fuel σ0 = some σ →
      |price σ - market| < ivTolerance := by
  intro fuel
  induction fuel with
  | zero =>
    intro σ0 σ h
    simp [nrIterate] at h
  | succ n ih =>
    intro σ0 σ h
    rw [nrIterate] at h
    by_cases hconv : |price σ0 - market| < ivTolerance
    · rw [if_pos hconv] at h
      obtain rfl : σ0 = σ := Option.some.inj h
      exact hconv
    · rw [if_neg hconv] at h
      by_cases hv : veg σ0 < vegaFloor
      · rw [if_pos hv] at h
        exact absurd h (by simp)
      · rw [if_neg hv] at h
        by_cases hn : σ0 - (price σ0 - market) / veg σ0 ≤ 0
        · rw [if_pos hn] at h
          exact absurd h (by simp)
        · rw [if_neg hn] at h
          exact ih _ _ h

/-- The bid = ask = 0 contract of the spec scenario: its mid price is 0, and
under the concrete monotone pricing model the first Newton step from 0.20
drives σ to 0, so the solver returns none. -/
theorem zero_premium_iv_none :
    calculate_implied_volatility (linearPM zeroBidAskContract).1
      (linearPM zeroBidAskContract).2 (midPriceOf zeroBidAskContract)
      = none := by
  have hm : midPriceOf zeroBidAskContract = 0 := by
    norm_num [midPriceOf, zeroBidAskContract]
  rw [hm]
  show nrIterate (linearPM zeroBidAskContract).1
    (linearPM zeroBidAskContract).2 0 100 (1 / 5) = none
  exact nrIterate_nonpos _ _ _ 99 _
    (by norm_num [linearPM, ivTolerance, abs_of_pos])
    (by norm_num [linearPM, vegaFloor])
    (by norm_num [linearPM])

/- ---------- C2 ---------- -/

/-- Claim C2, counterexample: with market price 0.20, the constant pricing
function 0.20001 and a vega of 1e-5, the initial iterate already satisfies
|price(σ) - market| = 1e-5 < 1e-4, so under the claimed 1e-4 tolerance the
solver would declare convergence at σ = 0.20 immediately; the solver as
documented by the repository (tolerance 1e-6) does not — it takes a Newton
step that drives σ non-positive and returns none. -/
theorem iv_tolerance_counterexample :
    |nearPriceFn sigmaInitial - 1 / 5| < 1 / 10000 ∧
    ¬ (|nearPriceFn sigmaInitial - 1 / 5| < ivTolerance) ∧
    calculate_implied_volatility nearPriceFn smallVega (1 / 5) = none := by
  refine ⟨?_, ?_, ?_⟩
  · norm_num [nearPriceFn, sigmaInitial, abs_of_pos]
  · norm_num [nearPriceFn, sigmaInitial, ivTolerance, abs_of_pos]
  · show nrIterate nearPriceFn smallVega (1 / 5) 100 (1 / 5) = none
    exact nrIterate_nonpos _ _ _ 99 _
      (by norm_num [nearPriceFn, ivTolerance, abs_of_pos])
      (by norm_num [smallVega, vegaFloor])
      (by norm_num [nearPriceFn, smallVega])

/-- Claim C2, amended: the IV Solver iterates
σ(n+1) = σ(n) − (price(σ(n)) − market)/vega(σ(n)) from the fixed initial
guess 0.20 under a cap of 100 iterations, and declares convergence exactly
when |price(σ(n)) − market| < 1e-6 (not 1e-4): it returns the iterate at
the first such test, takes the Newton step otherwise, and any returned
volatility satisfies the 1e-6 price-unit tolerance. -/
theorem iv_solver_newton_spec (price veg : ℚ → ℚ) (market : ℚ) :
    calculate_implied_volatility price veg market
      = nrIterate price veg market 100 (1 / 5) ∧
    (∀ fuel σ, |price σ - market| < 1 / 1000000 →
      nrIterate price veg market (fuel + 1) σ = some σ) ∧
    (∀ fuel σ, ¬ (|price σ - market| < 1 / 1000000) →
      ¬ (veg σ < vegaFloor) →
      0 < σ - (price σ - market) / veg σ →
      nrIterate price veg market (fuel + 1) σ =
        nrIterate price veg market fuel (σ - (price σ - market) / veg σ)) ∧
    (∀ fuel σ0 σ, nrIterate price veg market fuel σ0 = some σ →
      |price σ - market| < 1 / 1000000) :=
  ⟨rfl,
   fun fuel σ h => nrIterate_conv price veg market fuel σ h,
   fun fuel σ h hv hσ => nrIterate_newton_step price veg market fuel σ h hv hσ,
   fun fuel σ0 σ h => nrIterate_some_tol price veg market fuel σ0 σ h⟩

/-- Witness for `iv_solver_newton_spec`: the flat pricing function meets
the tolerance at the initial guess and the solver declares convergence
there. -/
theorem iv_solver_newton_spec_witness :
    |flatPriceFn (1 / 5) - 1 / 5| < 1 / 1000000 ∧
    nrIterate flatPriceFn unitVega (1 / 5) 1 (1 / 5) = some (1 / 5) :=
  ⟨by norm_num [flatPriceFn],
   (iv_solver_newton_spec flatPriceFn unitVega (1 / 5)).2.1 0 (1 / 5)
     (by norm_num [flatPriceFn])⟩

/- ---------- C4 ---------- -/

/-- Claim C4: the solver is a total function into an optional — it returns
none (never an exception) when the iteration budget is exhausted, when
vega falls below the 1e-8 floor, or when the Newton update drives the
volatility iterate non-positive; and the surface engine maps the solver
independently over the chain, so one contract's none leaves every other
contract's result untouched. -/
theorem iv_solver_null_on_failure (price veg : ℚ → ℚ) (market : ℚ) :
    (∀ σ, nrIterate price veg market 0 σ = none) ∧
    (∀ fuel σ, ¬ (|price σ - market| < ivTolerance) → veg σ < vegaFloor →
      nrIterate price veg market (fuel + 1) σ = none) ∧
    (∀ fuel σ, ¬ (|price σ - market| < ivTolerance) →
      ¬ (veg σ < vegaFloor) → σ - (price σ - market) / veg σ ≤ 0 →
      nrIterate price veg market (fuel + 1) σ = none) ∧
    (∀ (pm : PricingModel) (spot : ℚ) (chain : List OptionContractIn),
      (chain.map (attachIV pm spot)).length = chain.length ∧
      ∀ i : ℕ, (chain.map (attachIV pm spot))[i]? =
        (chain[i]?).map (attachIV pm spot)) :=
  ⟨fun σ => rfl,
   fun fuel σ h hv => nrIterate_vega_floor price veg market fuel σ h hv,
   fun fuel σ h hv hn => nrIterate_nonpos price veg market fuel σ h hv hn,
   fun pm spot chain =>
     ⟨List.length_map _ _, fun i => List.getElem?_map _ _ _⟩⟩

/-- Witness for `iv_solver_null_on_failure`: a vega of 1e-9 (below the
floor) with an unconverged price yields none. -/
theorem iv_solver_null_on_failure_witness :
    ¬ (|nearPriceFn (1 / 5) - 0| < ivTolerance) ∧
    tinyVegaFn (1 / 5) < vegaFloor ∧
    nrIterate nearPriceFn tinyVegaFn 0 100 (1 / 5) = none :=
  ⟨by norm_num [nearPriceFn, ivTolerance, abs_of_pos],
   by norm_num [tinyVegaFn, vegaFloor],
   (iv_solver_null_on_failure nearPriceFn tinyVegaFn 0).2.1 99 (1 / 5)
     (by norm_num [nearPriceFn, ivTolerance, abs_of_pos])
     (by norm_num [tinyVegaFn, vegaFloor])⟩

/- ---------- C6 ---------- -/

/-- Claim C6: appending a contract whose solver returns none leaves every
per-side range statistic unchanged while the per-side total count still
includes it (and the success count does not); and the bid = ask = 0
contract of the spec's scenario has mid price 0, receives null IV under
the concrete monotone pricing model, and is therefore excluded from the
statistics while still counted in total contracts. -/
theorem surface_stats_exclude_null_iv (pm : PricingModel) (spot rate : ℚ)
    (rawCalls rawPuts : List OptionContractIn) (c : OptionContractIn)
    (hc : calculate_implied_volatility (pm c).1 (pm c).2 (midPriceOf c)
      = none) :
    (computeSurface pm spot rate (rawCalls ++ [c]) rawPuts).metrics.iv_range_calls
      = (computeSurface pm spot rate rawCalls rawPuts).metrics.iv_range_calls ∧
    (computeSurface pm spot rate (rawCalls ++ [c]) rawPuts).metrics.total_call_contracts
      = rawCalls.length + 1 ∧
    (computeSurface pm spot rate (rawCalls ++ [c]) rawPuts).metrics.successful_call_ivs
      = (computeSurface pm spot rate rawCalls rawPuts).metrics.successful_call_ivs ∧
    (computeSurface pm spot rate rawCalls rawPuts).metrics.total_call_contracts
      = rawCalls.length ∧
    midPriceOf zeroBidAskContract = 0 ∧
    calculate_implied_volatility (linearPM zeroBidAskContract).1
      (linearPM zeroBidAskContract).2 (midPriceOf zeroBidAskContract)
      = none := by
  have hattach : (attachIV pm spot c).implied_volatility = none := by
    simp [attachIV, hc]
  have hlist : nonNullIVs ((rawCalls ++ [c]).map (attachIV pm spot))
      = nonNullIVs (rawCalls.map (attachIV pm spot)) := by
    simp [nonNullIVs, List.filterMap_append, hattach]
  refine ⟨?_, ?_, ?_, ?_, ?_, ?_⟩
  · show ivRangeStatsOf (nonNullIVs ((rawCalls ++ [c]).map (attachIV pm spot)))
      = ivRangeStatsOf (nonNullIVs (rawCalls.map (attachIV pm spot)))
    rw [hlist]
  · show ((rawCalls ++ [c]).map (attachIV pm spot)).length = rawCalls.length + 1
    simp
  · show (nonNullIVs ((rawCalls ++ [c]).map (attachIV pm spot))).length
      = (nonNullIVs (rawCalls.map (attachIV pm spot))).length
    rw [hlist]
  · show (rawCalls.map (attachIV pm spot)).length = rawCalls.length
    simp
  · norm_num [midPriceOf, zeroBidAskContract]
  · exact zero_premium_iv_none

/-- Witness for `surface_stats_exclude_null_iv` on a one-call chain plus
the zero-premium contract. -/
theorem surface_stats_exclude_null_iv_witness :
    calculate_implied_volatility (linearPM zeroBidAskContract).1
      (linearPM zeroBidAskContract).2 (midPriceOf zeroBidAskContract)
      = none ∧
    (computeSurface linearPM 100 (1 / 25) [zeroBidAskContract] []).metrics.total_call_contracts
      = 1 ∧
    (computeSurface linearPM 100 (1 / 25) [] []).metrics.total_call_contracts
      = 0 :=
  ⟨zero_premium_iv_none,
   ((surface_stats_exclude_null_iv linearPM 100 (1 / 25) [] []
      zeroBidAskContract zero_premium_iv_none).2.1 : _),
   ((surface_stats_exclude_null_iv linearPM 100 (1 / 25) [] []
      zeroBidAskContract zero_premium_iv_none).2.2.2.1 : _)⟩

/- ---------- C5 ---------- -/

theorem allPairs_length {α : Type} :
    ∀ l : List α, (allPairs l).length = l.length.choose 2 := by
  intro l
  induction l with
  | nil => rfl
  | cons x xs ih =>
    simp [allPairs, ih, Nat.choose_succ_succ, Nat.choose_one_right,
      Nat.add_comm]

theorem allPairs_mem {α : Type} :
    ∀ (l : List α) (a b : α), (a, b) ∈ allPairs l → a ∈ l ∧ b ∈ l := by
  intro l
  induction l with
  | nil => intro a b h; simp [allPairs] at h
  | cons x xs ih =>
    intro a b h
    simp only [allPairs, List.mem_append, List.mem_map] at h
    rcases h with ⟨y, hy, heq⟩ | h
    · injection heq with h1 h2
      subst h1
      subst h2
      exact ⟨List.mem_cons_self x xs, List.mem_cons_of_mem _ hy⟩
    · obtain ⟨ha, hb⟩ := ih a b h
      exact ⟨List.mem_cons_of_mem _ ha, List.mem_cons_of_mem _ hb⟩

theorem testedPairs_length_filter {S : Type} (fetch : String → Option S)
    (test : String → String → S → S → CointegratedPair) :
    ∀ l : List (String × String),
      (l.filterMap (fun ab =>
        match fetch ab.1, fetch ab.2 with
        | some sa, some sb => some (test ab.1 ab.2 sa sb)
        | _, _ => none)).length =
      (l.filter (fun ab => (fetch ab.1).isSome && (fetch ab.2).isSome)).length := by
  intro l
  induction l with
  | nil => rfl
  | cons ab t ih =>
    rcases h1 : fetch ab.1 with _ | sa <;> rcases h2 : fetch ab.2 with _ | sb <;>
      simp [List.filterMap_cons, List.filter_cons, h1, h2, ih]

/-- Claim C5: findPairs generates all C(n,2) unordered 2-combinations of
the universe; combinations whose price fetch failed for either ticker are
skipped and not counted, so totalCombinationsTested counts exactly the
fetch-successful combinations (all C(n,2) of them when every fetch
succeeds); the retained pairs are exactly the tested results with p-value
below the threshold. -/
theorem find_pairs_combinations {S : Type} (fetch : String → Option S)
    (test : String → String → S → S → CointegratedPair)
    (threshold : ℚ) (tickers : List String) :
    (allPairs tickers).length = tickers.length.choose 2 ∧
    (findPairs fetch test threshold tickers).total_combinations_tested =
      ((allPairs tickers).filter
        (fun ab => (fetch ab.1).isSome && (fetch ab.2).isSome)).length ∧
    ((∀ t ∈ tickers, (fetch t).isSome) →
      (findPairs fetch test threshold tickers).total_combinations_tested =
        tickers.length.choose 2) ∧
    (∀ r, r ∈ (findPairs fetch test threshold tickers).pairs ↔
      r ∈ testedPairs fetch test tickers ∧ r.p_value < threshold) ∧
    (findPairs fetch test threshold tickers).cointegrated_count =
      (findPairs fetch test threshold tickers).pairs.length := by
  refine ⟨allPairs_length tickers, testedPairs_length_filter fetch test _,
    ?_, ?_, rfl⟩
  · intro hall
    show (testedPairs fetch test tickers).length = _
    rw [testedPairs, testedPairs_length_filter fetch test]
    have : (allPairs tickers).filter
        (fun ab => (fetch ab.1).isSome && (fetch ab.2).isSome) =
        allPairs tickers := by
      apply List.filter_eq_self.mpr
      intro ab hab
      obtain ⟨ha, hb⟩ := allPairs_mem tickers ab.1 ab.2 hab
      simp [hall ab.1 ha, hall ab.2 hb]
    rw [this, allPairs_length]
  · intro r
    show r ∈ (testedPairs fetch test tickers).filter
        (fun r => r.p_value < threshold) ↔ _
    rw [List.mem_filter]
    simp

/-- Witness for `find_pairs_combinations`: a three-ticker universe with all
fetches succeeding tests all 3 combinations. -/
theorem find_pairs_combinations_witness :
    (∀ t ∈ (["GLD", "SLV", "PEP"] : List String),
      (constFetchFn t).isSome) ∧
    (findPairs constFetchFn constTestFn (1/20)
        ["GLD", "SLV", "PEP"]).total_combinations_tested =
      (["GLD", "SLV", "PEP"] : List String).length.choose 2 :=
  ⟨fun t _ => rfl,
   (find_pairs_combinations constFetchFn constTestFn (1/20)
      ["GLD", "SLV", "PEP"]).2.2.1 (fun t _ => rfl)⟩

/- ---------- C3 ---------- -/

theorem spread_indices_aux (w : ℕ) (f : ℕ → SpreadPoint)
    (hf : ∀ i, (f i).dateIdx = i) :
    ∀ l : List ℕ,
      ((l.filterMap (fun i => if i + 1 < w then none else some (f i))).map
        (fun p => p.dateIdx)) = l.filter (fun i => w ≤ i + 1) := by
  intro l
  induction l with
  | nil => rfl
  | cons x t ih =>
    by_cases hc : x + 1 < w
    · simp [List.filterMap_cons, List.filter_cons, hc, not_le.mpr hc, ih]
    · simp [List.filterMap_cons, List.filter_cons, hc, not_lt.mp hc, ih, hf]

/-- Claim C3: every output point of the Spread/Signal Generator lies at an
index with a defined z-score (w ≤ index + 1), carries exactly the rolling
z-score of the spread there, and its signal is the stateless per-point rule
applied to that z-score; the output indices are exactly the spread indices
from window − 1 on (the first window − 1 dates are excluded, not treated
as z = 0); and the rule assigns short when z ≥ entry, long when z ≤
−entry, exit when |z| ≤ exitThreshold, and none otherwise, in that
precedence. -/
theorem spread_signal_pointwise (a b : List ℝ) (β : ℝ) (w : ℕ)
    (entry exitThr : ℝ) :
    (∀ p ∈ computeSpread a b β w entry exitThr,
      w ≤ p.dateIdx + 1 ∧
      p.zscore = calculate_zscore w p.dateIdx (calculate_spread a b β) ∧
      p.signal = generate_trading_signal entry exitThr p.zscore) ∧
    ((computeSpread a b β w entry exitThr).map (fun p => p.dateIdx) =
      (List.range (calculate_spread a b β).length).filter
        (fun i => w ≤ i + 1)) ∧
    (∀ z : ℝ,
      (entry ≤ z → generate_trading_signal entry exitThr z = some .short) ∧
      (z < entry → z ≤ -entry →
        generate_trading_signal entry exitThr z = some .long) ∧
      (z < entry → -entry < z → |z| ≤ exitThr →
        generate_trading_signal entry exitThr z = some .exitSignal) ∧
      (z < entry → -entry < z → exitThr < |z| →
        generate_trading_signal entry exitThr z = none)) := by
  refine ⟨?_, ?_, ?_⟩
  · intro p hp
    simp only [computeSpread, List.mem_filterMap, List.mem_range] at hp
    obtain ⟨i, hi, hif⟩ := hp
    by_cases hw : i + 1 < w
    · rw [if_pos hw] at hif
      exact absurd hif (by simp)
    · rw [if_neg hw] at hif
      obtain rfl := Option.some.inj hif
      exact ⟨not_lt.mp hw, rfl, rfl⟩
  · exact spread_indices_aux w _ (fun i => rfl) _
  · intro z
    refine ⟨?_, ?_, ?_, ?_⟩
    · intro h
      rw [generate_trading_signal, if_pos h]
    · intro h1 h2
      rw [generate_trading_signal, if_neg (not_le.mpr h1), if_pos h2]
    · intro h1 h2 h3
      rw [generate_trading_signal, if_neg (not_le.mpr h1),
        if_neg (not_le.mpr h2), if_pos h3]
    · intro h1 h2 h3
      rw [generate_trading_signal, if_neg (not_le.mpr h1),
        if_neg (not_le.mpr h2), if_neg (not_le.mpr h3)]

/-- Witness for `spread_signal_pointwise`: at z = 2 with entryThreshold 2
the rule emits a short signal. -/
theorem spread_signal_pointwise_witness :
    ((2:ℝ) ≤ 2) ∧ generate_trading_signal 2 0 2 = some TradeSignal.short :=
  ⟨by norm_num,
   ((spread_signal_pointwise [] [] 0 20 2 0).2.2 2).1 (by norm_num)⟩

/- ---------- C8 ---------- -/

/-- Claim C8: for a valid correlation matrix (symmetric, unit diagonal,
entries in [-1, 1]) the derived distance d = sqrt(0.5·(1 − ρ)) has every
entry in [0, 1], is 0 on the diagonal, and vanishes exactly where ρ = 1. -/
theorem distance_matrix_bounds (n : ℕ) (C : ℕ → ℕ → ℝ)
    (hC : IsValidCorrMatrix n C) (i j : ℕ) (hi : i < n) (hj : j < n) :
    (0 ≤ correlation_to_distance (C i j) ∧
      correlation_to_distance (C i j) ≤ 1) ∧
    (i = j → correlation_to_distance (C i j) = 0) ∧
    (correlation_to_distance (C i j) = 0 ↔ C i j = 1) := by
  obtain ⟨hsymm, hdiag, hrange⟩ := hC
  obtain ⟨hlo, hhi⟩ := hrange i j hi hj
  refine ⟨⟨Real.sqrt_nonneg _, ?_⟩, ?_, ?_⟩
  · rw [correlation_to_distance]
    exact Real.sqrt_le_one.mpr (by linarith)
  · intro hij
    subst hij
    rw [correlation_to_distance, hdiag i hi]
    norm_num
  · rw [correlation_to_distance, Real.sqrt_eq_zero']
    constructor
    · intro h
      linarith
    · intro h
      rw [h]
      norm_num

/-- Witness for `distance_matrix_bounds` on the concrete 2×2 matrix. -/
theorem distance_matrix_bounds_witness :
    IsValidCorrMatrix 2 corrExample ∧
    ((0 ≤ correlation_to_distance (corrExample 0 1) ∧
      correlation_to_distance (corrExample 0 1) ≤ 1) ∧
    ((0:ℕ) = 1 → correlation_to_distance (corrExample 0 1) = 0) ∧
    (correlation_to_distance (corrExample 0 1) = 0 ↔ corrExample 0 1 = 1)) :=
  have hvalid : IsValidCorrMatrix 2 corrExample := by
    refine ⟨?_, ?_, ?_⟩
    · intro i j _ _
      rcases eq_or_ne i j with h | h
      · simp [corrExample, h]
      · simp [corrExample, h, h.symm]
    · intro i _
      simp [corrExample]
    · intro i j _ _
      rcases eq_or_ne i j with h | h <;> simp [corrExample, h] <;> norm_num
  ⟨hvalid,
   distance_matrix_bounds 2 corrExample hvalid 0 1 (by norm_num) (by norm_num)⟩

/- ---------- C7 ---------- -/

theorem ClusterTree.leafCount_pos : ∀ t : ClusterTree, 1 ≤ t.leafCount
  | .leaf _ => le_refl 1
  | .node _ l r =>
    le_trans (ClusterTree.leafCount_pos l) (Nat.le_add_right _ _)

theorem lwUpdate_ge_min (m : LinkageMethod) (a b c : ℚ) (ni nj nk : ℕ)
    (hca : c ≤ a) (hcb : c ≤ b) (hni : 1 ≤ ni) (hnj : 1 ≤ nj) :
    min a b ≤ lwUpdate m a b c ni nj nk := by
  have h1 : (1:ℚ) ≤ (ni : ℚ) := by exact_mod_cast hni
  have h2 : (1:ℚ) ≤ (nj : ℚ) := by exact_mod_cast hnj
  have h3 : (0:ℚ) ≤ (nk : ℚ) := Nat.cast_nonneg nk
  rcases m with _ | _ | _ | _ <;> simp only [lwUpdate]
  · exact le_refl _
  · exact le_trans (min_le_left a b) (le_max_left a b)
  · have hd : (0:ℚ) < (ni : ℚ) + (nj : ℚ) := by linarith
    rw [le_div_iff hd]
    rcases le_total a b with hab | hab
    · rw [min_eq_left hab]
      nlinarith [mul_le_mul_of_nonneg_left hab (by linarith : (0:ℚ) ≤ (nj : ℚ))]
    · rw [min_eq_right hab]
      nlinarith [mul_le_mul_of_nonneg_left hab (by linarith : (0:ℚ) ≤ (ni : ℚ))]
  · have hd : (0:ℚ) < (ni : ℚ) + (nj : ℚ) + (nk : ℚ) := by linarith
    rw [le_div_iff hd]
    have hm : c ≤ min a b := le_min hca hcb
    nlinarith [mul_le_mul_of_nonneg_left (min_le_left a b)
        (by linarith : (0:ℚ) ≤ (ni : ℚ) + (nk : ℚ)),
      mul_le_mul_of_nonneg_left (min_le_right a b)
        (by linarith : (0:ℚ) ≤ (nj : ℚ) + (nk : ℚ)),
      mul_le_mul_of_nonneg_left hm h3]

theorem argminAux_le {α : Type} (f : α → ℚ) :
    ∀ (l : List α) (best : α),
      f (argminAux f best l) ≤ f best ∧
      ∀ y ∈ l, f (argminAux f best l) ≤ f y := by
  intro l
  induction l with
  | nil =>
    intro best
    exact ⟨le_refl _, by simp⟩
  | cons x t ih =>
    intro best
    by_cases hx : f x < f best
    · rw [argminAux, if_pos hx]
      refine ⟨le_trans (ih x).1 (le_of_lt hx), ?_⟩
      intro y hy
      rcases List.mem_cons.mp hy with rfl | hy'
      · exact (ih y).1
      · exact (ih x).2 y hy'
    · rw [argminAux, if_neg hx]
      refine ⟨(ih best).1, ?_⟩
      intro y hy
      rcases List.mem_cons.mp hy with rfl | hy'
      · exact le_trans (ih best).1 (not_lt.mp hx)
      · exact (ih best).2 y hy'

theorem argminAux_mem {α : Type} (f : α → ℚ) :
    ∀ (l : List α) (best : α),
      argminAux f best l = best ∨ argminAux f best l ∈ l := by
  intro l
  induction l with
  | nil =>
    intro best
    exact Or.inl rfl
  | cons x t ih =>
    intro best
    rw [argminAux]
    by_cases hx : f x < f best
    · rw [if_pos hx]
      rcases ih x with h | h
      · exact Or.inr (by rw [h]; exact List.mem_cons_self x t)
      · exact Or.inr (List.mem_cons_of_mem x h)
    · rw [if_neg hx]
      rcases ih best with h | h
      · exact Or.inl h
      · exact Or.inr (List.mem_cons_of_mem x h)

theorem argminList_spec {α : Type} (f : α → ℚ) (l : List α) (r : α)
    (h : argminList f l = some r) : r ∈ l ∧ ∀ y ∈ l, f r ≤ f y := by
  rcases l with _ | ⟨x, t⟩
  · simp [argminList] at h
  · rw [argminList] at h
    obtain rfl := Option.some.inj h
    constructor
    · rcases argminAux_mem f t x with h' | h'
      · rw [h']
        exact List.mem_cons_self x t
      · exact List.mem_cons_of_mem x h'
    · intro y hy
      rcases List.mem_cons.mp hy with rfl | hy'
      · exact (argminAux_le f t y).1
      · exact (argminAux_le f t x).2 y hy'

theorem pair_mem_allPairs {α : Type} :
    ∀ (l : List α) (p q : α), p ∈ l → q ∈ l → p ≠ q →
      (p, q) ∈ allPairs l ∨ (q, p) ∈ allPairs l := by
  intro l
  induction l with
  | nil =>
    intro p q hp _ _
    simp at hp
  | cons x t ih =>
    intro p q hp hq hne
    simp only [allPairs]
    rcases List.mem_cons.mp hp with rfl | hp'
    · have hq' : q ∈ t := by
        rcases List.mem_cons.mp hq with h | h
        · exact absurd h.symm hne
        · exact h
      exact Or.inl (List.mem_append_left _ (List.mem_map_of_mem _ hq'))
    · rcases List.mem_cons.mp hq with rfl | hq'
      · exact Or.inr (List.mem_append_left _ (List.mem_map_of_mem _ hp'))
      · rcases ih p q hp' hq' hne with h | h
        · exact Or.inl (List.mem_append_right _ h)
        · exact Or.inr (List.mem_append_right _ h)

theorem allPairs_map_ne {α β : Type} (f : α → β) :
    ∀ l : List α, (l.map f).Nodup →
      ∀ p q : α, (p, q) ∈ allPairs l → f p ≠ f q := by
  intro l
  induction l with
  | nil =>
    intro _ p q h
    simp [allPairs] at h
  | cons x t ih =>
    intro hnd p q h
    rw [List.map_cons, List.nodup_cons] at hnd
    obtain ⟨hx, ht⟩ := hnd
    simp only [allPairs, List.mem_append] at h
    rcases h with h1 | h2
    · obtain ⟨y, hy, heq⟩ := List.mem_map.mp h1
      injection heq with e1 e2
      subst e1
      subst e2
      intro hcon
      apply hx
      rw [hcon]
      exact List.mem_map_of_mem f hy
    · exact ih ht p q h2

theorem mergeStep_d_new_right (m : LinkageMethod) (d : ℕ → ℕ → ℚ)
    (fresh : ℕ) (cs : List Cluster) (p q : Cluster) (y : ℕ)
    (hy : y ≠ fresh) :
    (mergeStep m d fresh cs p q).1 fresh y =
      lwUpdate m (d p.1 y) (d q.1 y) (d p.1 q.1)
        p.2.leafCount q.2.leafCount (sizeOfId cs y) := by
  simp [mergeStep, hy]

theorem mergeStep_d_new_left (m : LinkageMethod) (d : ℕ → ℕ → ℚ)
    (fresh : ℕ) (cs : List Cluster) (p q : Cluster) (x : ℕ)
    (hx : x ≠ fresh) :
    (mergeStep m d fresh cs p q).1 x fresh =
      lwUpdate m (d p.1 x) (d q.1 x) (d p.1 q.1)
        p.2.leafCount q.2.leafCount (sizeOfId cs x) := by
  simp [mergeStep, hx]

theorem mergeStep_d_old (m : LinkageMethod) (d : ℕ → ℕ → ℚ)
    (fresh : ℕ) (cs : List Cluster) (p q : Cluster) (x y : ℕ)
    (hx : x ≠ fresh) (hy : y ≠ fresh) :
    (mergeStep m d fresh cs p q).1 x y = d x y := by
  simp [mergeStep, hx, hy]

theorem mergeStep_inv (m : LinkageMethod) (d : ℕ → ℕ → ℚ) (fresh : ℕ)
    (cs : List Cluster) (p q : Cluster) (hinv : LinkInv d fresh cs)
    (hp : p ∈ cs) (hq : q ∈ cs) (hpq : p.1 ≠ q.1)
    (hmin : ∀ r ∈ cs, ∀ s ∈ cs, r.1 ≠ s.1 → d p.1 q.1 ≤ d r.1 s.1) :
    LinkInv (mergeStep m d fresh cs p q).1 (fresh + 1)
      (mergeStep m d fresh cs p q).2 := by
  obtain ⟨hsymm, hids, hnd, hnn, hhle, hmono⟩ := hinv
  have hrest : ∀ c, c ∈ (mergeStep m d fresh cs p q).2 →
      c = (fresh, ClusterTree.node (d p.1 q.1) p.2 q.2) ∨
      (c ∈ cs ∧ c.1 ≠ p.1 ∧ c.1 ≠ q.1) := by
    intro c hc
    simp only [mergeStep, List.mem_cons, List.mem_filter] at hc
    rcases hc with rfl | ⟨hmem, hcond⟩
    · exact Or.inl rfl
    · simp only [decide_eq_true_eq] at hcond
      exact Or.inr ⟨hmem, hcond.1, hcond.2⟩
  have hkey : ∀ k ∈ cs, k.1 ≠ p.1 → k.1 ≠ q.1 →
      min (d p.1 k.1) (d q.1 k.1) ≤
        lwUpdate m (d p.1 k.1) (d q.1 k.1) (d p.1 q.1)
          p.2.leafCount q.2.leafCount (sizeOfId cs k.1) ∧
      d p.1 q.1 ≤ min (d p.1 k.1) (d q.1 k.1) ∧
      k.2.heightOf ≤ min (d p.1 k.1) (d q.1 k.1) ∧
      0 ≤ min (d p.1 k.1) (d q.1 k.1) := by
    intro k hk hkp hkq
    have hppk : d p.1 q.1 ≤ d p.1 k.1 := hmin p hp k hk (Ne.symm hkp)
    have hqqk : d p.1 q.1 ≤ d q.1 k.1 := hmin q hq k hk (Ne.symm hkq)
    have hha : k.2.heightOf ≤ d p.1 k.1 := by
      have h := hhle k hk p hp hkp
      rwa [hsymm k.1 p.1] at h
    have hhb : k.2.heightOf ≤ d q.1 k.1 := by
      have h := hhle k hk q hq hkq
      rwa [hsymm k.1 q.1] at h
    have h0a : 0 ≤ d p.1 k.1 := hnn p hp k hk (Ne.symm hkp)
    have h0b : 0 ≤ d q.1 k.1 := hnn q hq k hk (Ne.symm hkq)
    exact ⟨lwUpdate_ge_min m _ _ _ _ _ _ hppk hqqk
        (ClusterTree.leafCount_pos p.2) (ClusterTree.leafCount_pos q.2),
      le_min hppk hqqk, le_min hha hhb, le_min h0a h0b⟩
  refine ⟨?_, ?_, ?_, ?_, ?_, ?_⟩
  · intro x y
    by_cases hx : x = fresh <;> by_cases hy : y = fresh <;>
      simp [mergeStep, hx, hy, hsymm x y]
  · intro c hc
    rcases hrest c hc with rfl | ⟨hmem, _, _⟩
    · exact Nat.lt_succ_self fresh
    · exact Nat.lt_succ_of_lt (hids c hmem)
  · simp only [mergeStep, List.map_cons]
    refine List.nodup_cons.mpr ⟨?_, ?_⟩
    · intro hmem
      obtain ⟨c, hc, hceq⟩ := List.mem_map.mp hmem
      have hcs : c ∈ cs := (List.mem_filter.mp hc).1
      exact (Nat.ne_of_lt (hids c hcs)) hceq
    · exact List.Nodup.sublist
        ((List.filter_sublist cs).map (fun c => c.1)) hnd
  · intro r hr s hs hrs
    rcases hrest r hr with rfl | ⟨hrmem, hrp, hrq⟩ <;>
      rcases hrest s hs with rfl | ⟨hsmem, hsp, hsq⟩
    · exact absurd rfl hrs
    · show (0:ℚ) ≤ (mergeStep m d fresh cs p q).1 fresh s.1
      rw [mergeStep_d_new_right m d fresh cs p q s.1 (Nat.ne_of_lt (hids s hsmem))]
      obtain ⟨hupd, _, _, h0⟩ := hkey s hsmem hsp hsq
      exact le_trans h0 hupd
    · show (0:ℚ) ≤ (mergeStep m d fresh cs p q).1 r.1 fresh
      rw [mergeStep_d_new_left m d fresh cs p q r.1 (Nat.ne_of_lt (hids r hrmem))]
      obtain ⟨hupd, _, _, h0⟩ := hkey r hrmem hrp hrq
      exact le_trans h0 hupd
    · rw [mergeStep_d_old m d fresh cs p q r.1 s.1
        (Nat.ne_of_lt (hids r hrmem)) (Nat.ne_of_lt (hids s hsmem))]
      exact hnn r hrmem s hsmem hrs
  · intro r hr s hs hrs
    rcases hrest r hr with rfl | ⟨hrmem, hrp, hrq⟩ <;>
      rcases hrest s hs with rfl | ⟨hsmem, hsp, hsq⟩
    · exact absurd rfl hrs
    · show (ClusterTree.node (d p.1 q.1) p.2 q.2).heightOf ≤
        (mergeStep m d fresh cs p q).1 fresh s.1
      rw [mergeStep_d_new_right m d fresh cs p q s.1 (Nat.ne_of_lt (hids s hsmem))]
      obtain ⟨hupd, hc, _, _⟩ := hkey s hsmem hsp hsq
      simp only [ClusterTree.heightOf]
      exact le_trans hc hupd
    · show r.2.heightOf ≤ (mergeStep m d fresh cs p q).1 r.1 fresh
      rw [mergeStep_d_new_left m d fresh cs p q r.1 (Nat.ne_of_lt (hids r hrmem))]
      obtain ⟨hupd, _, hh, _⟩ := hkey r hrmem hrp hrq
      exact le_trans hh hupd
    · rw [mergeStep_d_old m d fresh cs p q r.1 s.1
        (Nat.ne_of_lt (hids r hrmem)) (Nat.ne_of_lt (hids s hsmem))]
      exact hhle r hrmem s hsmem hrs
  · intro c hc
    rcases hrest c hc with rfl | ⟨hmem, _, _⟩
    · show (ClusterTree.node (d p.1 q.1) p.2 q.2).monotone
      refine ⟨hhle p hp q hq hpq, ?_, hmono p hp, hmono q hq⟩
      have h := hhle q hq p hp (Ne.symm hpq)
      rwa [hsymm q.1 p.1] at h
    · exact hmono c hmem

theorem initial_linkInv (n : ℕ) (d0 : ℕ → ℕ → ℚ)
    (hsymm : ∀ x y, d0 x y = d0 y x) (hnn : ∀ x y, 0 ≤ d0 x y) :
    LinkInv d0 n ((List.range n).map (fun i => (i, ClusterTree.leaf i))) := by
  refine ⟨hsymm, ?_, ?_, ?_, ?_, ?_⟩
  · intro c hc
    obtain ⟨i, hi, rfl⟩ := List.mem_map.mp hc
    exact List.mem_range.mp hi
  · have hmap : (((List.range n).map
        (fun i => ((i, ClusterTree.leaf i) : Cluster))).map (fun c => c.1))
        = List.range n := by
      rw [List.map_map]
      exact List.map_id (List.range n)
    rw [hmap]
    exact List.nodup_range n
  · intro r hr s hs hrs
    exact hnn r.1 s.1
  · intro r hr s hs hrs
    obtain ⟨i, hi, rfl⟩ := List.mem_map.mp hr
    simpa [ClusterTree.heightOf] using hnn i s.1
  · intro c hc
    obtain ⟨i, hi, rfl⟩ := List.mem_map.mp hc
    trivial

theorem runLinkage_inv (m : LinkageMethod) :
    ∀ (fuel : ℕ) (d : ℕ → ℕ → ℚ) (fresh : ℕ) (cs : List Cluster),
      LinkInv d fresh cs →
      ∀ c ∈ runLinkage m fuel d fresh cs, c.2.monotone := by
  intro fuel
  induction fuel with
  | zero =>
    intro d fresh cs hinv c hc
    rw [runLinkage] at hc
    exact hinv.mono c hc
  | succ nn ih =>
    intro d fresh cs hinv c hc
    rw [runLinkage] at hc
    rcases hsel : argminList (fun pq => d pq.1.1 pq.2.1) (allPairs cs)
      with _ | pq
    · rw [hsel] at hc
      exact hinv.mono c hc
    · rw [hsel] at hc
      obtain ⟨hmem, hbound⟩ := argminList_spec _ _ _ hsel
      obtain ⟨hp1, hp2⟩ := allPairs_mem cs pq.1 pq.2 (by simpa using hmem)
      have hne : pq.1.1 ≠ pq.2.1 :=
        allPairs_map_ne (fun c => c.1) cs hinv.nodupIds pq.1 pq.2
          (by simpa using hmem)
      have hmin : ∀ r ∈ cs, ∀ s ∈ cs, r.1 ≠ s.1 →
          d pq.1.1 pq.2.1 ≤ d r.1 s.1 := by
        intro r hr s hs hrs
        have hne' : r ≠ s := fun hcon => hrs (by rw [hcon])
        rcases pair_mem_allPairs cs r s hr hs hne' with h | h
        · exact hbound (r, s) h
        · calc d pq.1.1 pq.2.1 ≤ d s.1 r.1 := hbound (s, r) h
            _ = d r.1 s.1 := hinv.symm s.1 r.1
      exact ih _ _ _
        (mergeStep_inv m d fresh cs pq.1 pq.2 hinv hp1 hp2 hne hmin) c hc

theorem ClusterTree.monotone_heightOf_nonneg :
    ∀ t : ClusterTree, t.monotone → 0 ≤ t.heightOf
  | .leaf _, _ => le_refl 0
  | .node _ l _, hm =>
    le_trans (ClusterTree.monotone_heightOf_nonneg l hm.2.2.1) hm.1

theorem ClusterTree.mapHeights_heightOf (f : ℚ → ℝ) (hf0 : f 0 = 0) :
    ∀ t : ClusterTree, (t.mapHeights f).heightOf = f t.heightOf
  | .leaf _ => by
    simp [ClusterTree.mapHeights, ClusterTree.heightOf,
      ClusterTreeR.heightOf, hf0]
  | .node _ _ _ => by
    simp [ClusterTree.mapHeights, ClusterTree.heightOf, ClusterTreeR.heightOf]

theorem ClusterTree.mapHeights_monotone (f : ℚ → ℝ) (hf : Monotone f)
    (hf0 : f 0 = 0) :
    ∀ t : ClusterTree, t.monotone → (t.mapHeights f).monotone
  | .leaf _, _ => trivial
  | .node h l r, hm => by
    refine ⟨?_, ?_, ClusterTree.mapHeights_monotone f hf hf0 l hm.2.2.1,
      ClusterTree.mapHeights_monotone f hf hf0 r hm.2.2.2⟩
    · show (l.mapHeights f).heightOf ≤ f h
      rw [ClusterTree.mapHeights_heightOf f hf0 l]
      exact hf hm.1
    · show (r.mapHeights f).heightOf ≤ f h
      rw [ClusterTree.mapHeights_heightOf f hf0 r]
      exact hf hm.2.1

/-- Claim C7: for all four linkage methods and every symmetric, nonnegative
initial distance matrix, every cluster tree produced by the Distance &
Linkage module has non-decreasing merge heights from leaves to root (each
internal node's height is at least the height of each child); and the
square-root transform that turns the ward squared-space heights into the
reported distances preserves this monotone merge order. -/
theorem linkage_merge_heights_monotone (m : LinkageMethod) (n : ℕ)
    (d0 : ℕ → ℕ → ℚ) (hsymm : ∀ x y, d0 x y = d0 y x)
    (hnn : ∀ x y, 0 ≤ d0 x y) :
    (∀ c ∈ perform_hierarchical_clustering m n d0, c.2.monotone) ∧
    (∀ c ∈ perform_hierarchical_clustering m n d0,
      (c.2.mapHeights (fun x => Real.sqrt (x : ℝ))).monotone) := by
  have hmain : ∀ c ∈ perform_hierarchical_clustering m n d0, c.2.monotone :=
    runLinkage_inv m n d0 n _ (initial_linkInv n d0 hsymm hnn)
  refine ⟨hmain, fun c hc => ClusterTree.mapHeights_monotone _ ?_ ?_ c.2
    (hmain c hc)⟩
  · intro a b hab
    exact Real.sqrt_le_sqrt (by exact_mod_cast hab)
  · simp

/-- Witness for `linkage_merge_heights_monotone` with ward linkage on a
concrete symmetric nonnegative 3×3 distance function. -/
theorem linkage_merge_heights_monotone_witness :
    (∀ x y, exampleDist x y = exampleDist y x) ∧
    (∀ x y, (0:ℚ) ≤ exampleDist x y) ∧
    (∀ c ∈ perform_hierarchical_clustering .ward 3 exampleDist,
      c.2.monotone) := by
  have hsymm : ∀ x y, exampleDist x y = exampleDist y x := by
    intro x y
    rcases eq_or_ne x y with h | h
    · rw [h]
    · simp [exampleDist, h, h.symm]
  have hnn : ∀ x y, (0:ℚ) ≤ exampleDist x y := by
    intro x y
    rcases eq_or_ne x y with h | h <;> norm_num [exampleDist, h]
  exact ⟨hsymm, hnn,
    (linkage_merge_heights_monotone .ward 3 exampleDist hsymm hnn).1⟩

end Quant
